import Mathlib

/-!
Verification of the route store of `go-admin`
(`src/ui/src/store/modules/route/index.ts`), the frontend's dynamic
route/menu reconciliation engine.

The store is embedded shallowly: the Pinia setup store's refs, the module-level
`removeRouteFns` array, the live vue-router registration table and the external
collaborators (app store reload, auth store session reset, tab store) are
gathered into one explicit state record `RouteState`, and every store action
becomes a pure state transformer.  Helpers the store imports from modules that
are not among the sources (`./shared`, `@/router/routes`, the pinia `$reset`
plugin, environment values) are modelled from the spec and marked as such.
-/

namespace GoAdmin

/-- A route definition node (`ElegantConstRoute`), abstracted to the attributes
the reconciliation logic reads: its unique key `name`, its declared `order`
value, its required `roles`, menu visibility, and the leaf/cacheable data the
cache-key projection uses. -/
structure Route where
  name : String
  order : Nat := 0
  roles : List String := []
  hideInMenu : Bool := false
  isLeaf : Bool := true
  keepAlive : Bool := false
deriving DecidableEq, Repr

/-- One `map.set` step of the `Map`-based de-duplication by `name` used by
`addConstantRoutes` and `addAuthRoutes`: setting an existing key keeps its
original insertion position while replacing its value; a new key is appended. -/
def mapSetByName (acc : List Route) (r : Route) : List Route :=
  if acc.any (fun x => x.name == r.name) then
    acc.map (fun x => if x.name == r.name then r else x)
  else
    acc ++ [r]

/-- The body shared by `addConstantRoutes`/`addAuthRoutes`: build a
`Map<string, ElegantConstRoute>` keyed by route name via `forEach`/`set`, then
list its values in insertion order (`Array.from(map.values())`). -/
def dedupRoutesByName (routes : List Route) : List Route :=
  routes.foldl mapSetByName []

/-- The comparison `sortRoutesByOrder` sorts by: declared order value,
ascending. -/
def routeOrderLE (a b : Route) : Prop := a.order ≤ b.order

instance : DecidableRel routeOrderLE := fun a b => Nat.decLe a.order b.order

instance : IsTotal Route routeOrderLE := ⟨fun a b => Nat.le_total a.order b.order⟩

instance : IsTrans Route routeOrderLE := ⟨fun _ _ _ hab hbc => Nat.le_trans hab hbc⟩

/-- Modelled from the spec: `sortRoutesByOrder` is imported from `./shared`,
which is not among the sources; the spec prescribes a stable sort ordered
primarily by each node's declared order value ascending, with original relative
order as tie-break.  Insertion sort is such a stable sort. -/
def sortRoutesByOrder (routes : List Route) : List Route :=
  List.insertionSort routeOrderLE routes

/-- Modelled from the spec: `getAuthVueRoutes` (from `@/router/routes`, not
among the sources) translates elegant route definitions into vue-router
records; at the abstraction level of this model it preserves the node list and
its keys, so it is the identity. -/
def getAuthVueRoutes (routes : List Route) : List Route := routes

/-- Modelled from the spec: `getCacheRouteNames` (from `./shared`, not among
the sources); per the spec a route key is cache-eligible iff its node is a
leaf (no children) and is marked cacheable. -/
def getCacheRouteNames (routes : List Route) : List String :=
  (routes.filter (fun r => r.isLeaf && r.keepAlive)).map (fun r => r.name)

/-- Modelled from the spec: `getGlobalMenusByAuthRoutes` (from `./shared`, not
among the sources); per the spec the menu projection keeps the nodes not
flagged hidden.  Menu nodes are abstracted to their route keys. -/
def getGlobalMenusByAuthRoutes (routes : List Route) : List String :=
  (routes.filter (fun r => !r.hideInMenu)).map (fun r => r.name)

/-- Modelled from the spec: `filterAuthRoutesByRoles` (from `./shared`, not
among the sources); per spec §4.1 a node is kept iff it declares no required
permission, or at least one of its required permissions is present in the
authority set. -/
def filterAuthRoutesByRoles (routes : List Route) (roles : List String) : List Route :=
  routes.filter (fun r => r.roles.isEmpty || r.roles.any (fun ro => roles.contains ro))

/-- Trace of invocations of the cache primitives and of the page-reload
collaborator, used to state the ordering guarantees of `reCacheRoutesByKey`
and `reCacheRoutesByKeys`. -/
inductive CacheEvent where
  | removeCache (key : String)
  | reload
  | addCache (key : String)
deriving DecidableEq, Repr

/-- Model of `import.meta.env.VITE_ROUTE_HOME`, the initial home route key. -/
def defaultRouteHome : String := "home"

/-- The whole observable state of the route store: the store refs
(`isInitConstantRoute` … `allCacheRoutes`), the module-level `removeRouteFns`
array (each retraction handle recorded as the name it retracts), the live
router's registration table (`registered`, a list with set semantics), and the
external collaborators' observations (cache/reload trace, auth-store session
reset counter, tab-store home-tab counter). -/
structure RouteState where
  isInitConstantRoute : Bool := false
  isInitAuthRoute : Bool := false
  routeHome : String := defaultRouteHome
  constantRoutes : List Route := []
  authRoutes : List Route := []
  menus : List String := []
  cacheRoutes : List String := []
  allCacheRoutes : List String := []
  removeRouteFns : List String := []
  registered : List String := []
  cacheTrace : List CacheEvent := []
  resetSessionCount : Nat := 0
  initHomeTabCount : Nat := 0
deriving DecidableEq, Repr

/-- `setRouteHome(routeKey)`. -/
def setRouteHome (routeKey : String) (s : RouteState) : RouteState :=
  { s with routeHome := routeKey }

/-- `addConstantRoutes(routes)`: de-duplicate by name into a `Map`, store the
values. -/
def addConstantRoutes (routes : List Route) (s : RouteState) : RouteState :=
  { s with constantRoutes := dedupRoutesByName routes }

/-- `addAuthRoutes(routes)`: de-duplicate by name into a `Map`, store the
values. -/
def addAuthRoutes (routes : List Route) (s : RouteState) : RouteState :=
  { s with authRoutes := dedupRoutesByName routes }

/-- `getGlobalMenus(routes)`. -/
def getGlobalMenus (routes : List Route) (s : RouteState) : RouteState :=
  { s with menus := getGlobalMenusByAuthRoutes routes }

/-- `getCacheRoutes(routes)`: sets both the active cache list and the allow
list to the cache-eligible names of the given vue routes. -/
def getCacheRoutes (routes : List Route) (s : RouteState) : RouteState :=
  { s with cacheRoutes := getCacheRouteNames routes,
           allCacheRoutes := getCacheRouteNames routes }

/-- `addCacheRoutes(routeKey)`: no-op on the list if the key is present, else
push.  The invocation is recorded in the trace either way. -/
def addCacheRoutes (routeKey : String) (s : RouteState) : RouteState :=
  if s.cacheRoutes.contains routeKey then
    { s with cacheTrace := s.cacheTrace ++ [CacheEvent.addCache routeKey] }
  else
    { s with cacheTrace := s.cacheTrace ++ [CacheEvent.addCache routeKey],
             cacheRoutes := s.cacheRoutes ++ [routeKey] }

/-- `removeCacheRoutes(routeKey)`: `findIndex` + `splice(index, 1)` removes the
first occurrence; together with the `index === -1` early return this is exactly
`List.erase` (a no-op when the key is absent).  The invocation is recorded in
the trace. -/
def removeCacheRoutes (routeKey : String) (s : RouteState) : RouteState :=
  { s with cacheTrace := s.cacheTrace ++ [CacheEvent.removeCache routeKey],
           cacheRoutes := s.cacheRoutes.erase routeKey }

/-- `isCachedRoute(routeKey)`: membership in the allow list `allCacheRoutes`. -/
def isCachedRoute (routeKey : String) (s : RouteState) : Bool :=
  s.allCacheRoutes.contains routeKey

/-- `appStore.reloadPage()`: the external view collaborator reloads the hosting
view; modelled as emitting a reload event into the trace. -/
def reloadPage (s : RouteState) : RouteState :=
  { s with cacheTrace := s.cacheTrace ++ [CacheEvent.reload] }

/-- `reCacheRoutesByKey(routeKey)`: if the key is not allowed, return at once;
otherwise remove it, await the page reload, then re-add it. -/
def reCacheRoutesByKey (routeKey : String) (s : RouteState) : RouteState :=
  if isCachedRoute routeKey s then
    addCacheRoutes routeKey (reloadPage (removeCacheRoutes routeKey s))
  else s

/-- `reCacheRoutesByKeys(routeKeys)`: the `for await … of` loop awaits each
key's `reCacheRoutesByKey` before starting the next, i.e. a left fold of the
single-key operation over the key sequence. -/
def reCacheRoutesByKeys (routeKeys : List String) (s : RouteState) : RouteState :=
  routeKeys.foldl (fun t k => reCacheRoutesByKey k t) s

/-- Insertion into the live router's name table; registering a name that is
already registered replaces that registration, which leaves name-set
membership unchanged. -/
def regInsert (reg : List String) (routeName : String) : List String :=
  if reg.contains routeName then reg else reg ++ [routeName]

/-- `router.addRoute(route)`: registers the route's name into the live
router. -/
def routerAddRoute (routeName : String) (s : RouteState) : RouteState :=
  { s with registered := regInsert s.registered routeName }

/-- `router.removeRoute(name)` and the retraction handles returned by
`router.addRoute`: remove the named registration; idempotent-safe (a no-op
when the name is already gone). -/
def routerRemoveRoute (routeName : String) (s : RouteState) : RouteState :=
  { s with registered := s.registered.filter (fun n => n != routeName) }

/-- `addRemoveRouteFn(fn)`: record the retraction handle (as the name it
retracts). -/
def addRemoveRouteFn (routeName : String) (s : RouteState) : RouteState :=
  { s with removeRouteFns := s.removeRouteFns ++ [routeName] }

/-- `addRoutesToVueRouter(routes)`: register every route, recording one
retraction handle per registration. -/
def addRoutesToVueRouter (routes : List Route) (s : RouteState) : RouteState :=
  routes.foldl (fun t r => addRemoveRouteFn r.name (routerAddRoute r.name t)) s

/-- `resetVueRoutes()`: call every recorded retraction handle, then clear the
handle list. -/
def resetVueRoutes (s : RouteState) : RouteState :=
  let t := s.removeRouteFns.foldl (fun t n => routerRemoveRoute n t) s
  { t with removeRouteFns := [] }

/-- The merge step of `handleConstantAndAuthRoutes` (its first two
statements): the plain concatenation `[...constantRoutes, ...authRoutes]` of
the stored collections, sorted by declared order. -/
def mergeConstantAndAuthRoutes (constant authorized : List Route) : List Route :=
  let allRoutes := constant ++ authorized
  sortRoutesByOrder allRoutes

/-- `handleConstantAndAuthRoutes()`: concatenate the stored constant and auth
routes, sort them by order, translate to vue routes, retract the previous
registrations, register the new ones, and rebuild menus and cache lists. -/
def handleConstantAndAuthRoutes (s : RouteState) : RouteState :=
  let sortRoutes := mergeConstantAndAuthRoutes s.constantRoutes s.authRoutes
  let vueRoutes := getAuthVueRoutes sortRoutes
  let s1 := resetVueRoutes s
  let s2 := addRoutesToVueRouter vueRoutes s1
  let s3 := getGlobalMenus sortRoutes s2
  getCacheRoutes vueRoutes s3

/-- Modelled from the spec: `createStaticRoutes` (from `@/router/routes`, not
among the sources) is the pure, synchronous static route catalog provider; the
catalog it returns is a parameter of the model. -/
structure StaticCatalog where
  constantRoutes : List Route := []
  authRoutes : List Route := []
deriving DecidableEq, Repr

/-- `initConstantRoute()`: idempotence guard on the constant flag, then store
the static constant catalog, reconcile, and raise the flag. -/
def initConstantRoute (catalog : StaticCatalog) (s : RouteState) : RouteState :=
  if s.isInitConstantRoute then s
  else
    let s1 := addConstantRoutes catalog.constantRoutes s
    let s2 := handleConstantAndAuthRoutes s1
    { s2 with isInitConstantRoute := true }

/-- Modelled from the spec: pinia `$reset` (store plumbing outside the
sources) restores every state ref of the store to its initial value.  The
module-level `removeRouteFns` array, the live router's table and the external
collaborators are not store refs and are untouched. -/
def piniaReset (s : RouteState) : RouteState :=
  { s with isInitConstantRoute := false,
           isInitAuthRoute := false,
           routeHome := defaultRouteHome,
           constantRoutes := [],
           authRoutes := [],
           menus := [],
           cacheRoutes := [],
           allCacheRoutes := [] }

/-- `resetStore()`: `$reset` the store refs, retract all live registrations,
then re-run `initConstantRoute`. -/
def resetStore (catalog : StaticCatalog) (s : RouteState) : RouteState :=
  initConstantRoute catalog (resetVueRoutes (piniaReset s))

/-- `initStaticAuthRoute()`: a super caller stores the whole static authorized
catalog; any other caller stores `filterAuthRoutesByRoles(staticAuthRoutes, [])`
(note the literal empty roles array in the source); then reconcile and raise
the auth flag. -/
def initStaticAuthRoute (catalog : StaticCatalog) (isStaticSuper : Bool)
    (s : RouteState) : RouteState :=
  let s1 :=
    if isStaticSuper then addAuthRoutes catalog.authRoutes s
    else addAuthRoutes (filterAuthRoutesByRoles catalog.authRoutes []) s
  let s2 := handleConstantAndAuthRoutes s1
  { s2 with isInitAuthRoute := true }

/-- Name of `ROOT_ROUTE` (from `@/router/routes/builtin`, not among the
sources). -/
def rootRouteName : String := "root"

/-- Modelled from the spec: `getRoutePath` (from the generated elegant-router
transform, not among the sources) resolves a route key to its path; keys are
stable opaque identifiers, modelled as resolving to the key itself. -/
def getRoutePath (routeKey : String) : String := routeKey

/-- `handleUpdateRootRouteRedirect(redirectKey)`: when the redirect path
resolves, retract and re-register only the root route with the new redirect
(its new registration is not recorded in `removeRouteFns`). -/
def handleUpdateRootRouteRedirect (redirectKey : String) (s : RouteState) : RouteState :=
  let redirect := getRoutePath redirectKey
  if redirect != "" then
    routerAddRoute rootRouteName (routerRemoveRoute rootRouteName s)
  else s

/-- The payload of a successful `fetchGetUserRoutes` call. -/
structure UserRoutesData where
  routes : List Route := []
  home : String := defaultRouteHome
deriving DecidableEq, Repr

/-- `authStore.resetStore()`: the external Auth collaborator's full session
reset; modelled as counting its invocations. -/
def authStoreResetStore (s : RouteState) : RouteState :=
  { s with resetSessionCount := s.resetSessionCount + 1 }

/-- `initDynamicAuthRoute()`: on a successful fetch, store the delivered auth
routes, reconcile, record the home key, patch the root redirect and raise the
auth flag; on a failed fetch, delegate to the Auth collaborator's session
reset. -/
def initDynamicAuthRoute (fetchResult : Option UserRoutesData) (s : RouteState) : RouteState :=
  match fetchResult with
  | some data =>
    let s1 := addAuthRoutes data.routes s
    let s2 := handleConstantAndAuthRoutes s1
    let s3 := setRouteHome data.home s2
    let s4 := handleUpdateRootRouteRedirect data.home s3
    { s4 with isInitAuthRoute := true }
  | none => authStoreResetStore s

/-- The configured auth route mode (`VITE_AUTH_ROUTE_MODE`). -/
inductive AuthRouteMode where
  | staticMode
  | dynamicMode
deriving DecidableEq, Repr

/-- `tabStore.initHomeTab()`: external Tab collaborator, modelled as a
counter. -/
def tabStoreInitHomeTab (s : RouteState) : RouteState :=
  { s with initHomeTabCount := s.initHomeTabCount + 1 }

/-- `initAuthRoute()`: branch on the configured mode, then notify the Tab
collaborator. -/
def initAuthRoute (mode : AuthRouteMode) (catalog : StaticCatalog) (isStaticSuper : Bool)
    (fetchResult : Option UserRoutesData) (s : RouteState) : RouteState :=
  let s1 :=
    match mode with
    | AuthRouteMode.staticMode => initStaticAuthRoute catalog isStaticSuper s
    | AuthRouteMode.dynamicMode => initDynamicAuthRoute fetchResult s
  tabStoreInitHomeTab s1

/-- One insertion step of the key order a JS `Map` maintains: a new key is
appended, an existing key keeps its position. -/
def insertNew (acc : List String) (n : String) : List String :=
  if acc.contains n then acc else acc ++ [n]

/-- The key enumeration order of a JS `Map` fed a sequence of keys: the order
of first occurrence of each key.  Spec-side comparison definition for the
de-duplication claims. -/
def firstOccur (l : List String) : List String :=
  l.foldl insertNew []

/-! ## The merge step: stable sort of the plain concatenation -/

theorem perm_sortRoutesByOrder (l : List Route) :
    List.Perm (sortRoutesByOrder l) l :=
  List.perm_insertionSort routeOrderLE l

theorem sorted_sortRoutesByOrder (l : List Route) :
    List.Sorted routeOrderLE (sortRoutesByOrder l) :=
  List.sorted_insertionSort routeOrderLE l

theorem filter_order_orderedInsert (o : Nat) (a : Route) (l : List Route) :
    (List.orderedInsert routeOrderLE a l).filter (fun r => r.order == o)
      = if a.order == o then a :: l.filter (fun r => r.order == o)
        else l.filter (fun r => r.order == o) := by
  induction l with
  | nil =>
    by_cases hao : a.order = o <;> simp [List.orderedInsert, hao]
  | cons b l ih =>
    by_cases hab : routeOrderLE a b
    · rw [List.orderedInsert, if_pos hab]
      by_cases hao : a.order = o <;> by_cases hbo : b.order = o <;>
        simp [List.filter_cons, hao, hbo]
    · rw [List.orderedInsert, if_neg hab]
      have hba : b.order < a.order := Nat.lt_of_not_le hab
      by_cases hao : a.order = o
      · have hbo : ¬ b.order = o := by
          intro hbo
          rw [hao, hbo] at hba
          exact Nat.lt_irrefl o hba
        rw [List.filter_cons_of_neg (by simp [hbo]), ih, if_pos (by simp [hao]),
          if_pos (by simp [hao]), List.filter_cons_of_neg (by simp [hbo])]
      · rw [if_neg (by simp [hao])] at ih ⊢
        by_cases hbo : b.order = o
        · rw [List.filter_cons_of_pos (by simp [hbo]), ih,
            List.filter_cons_of_pos (by simp [hbo])]
        · rw [List.filter_cons_of_neg (by simp [hbo]), ih,
            List.filter_cons_of_neg (by simp [hbo])]

theorem filter_order_sortRoutesByOrder (o : Nat) (l : List Route) :
    (sortRoutesByOrder l).filter (fun r => r.order == o)
      = l.filter (fun r => r.order == o) := by
  unfold sortRoutesByOrder
  induction l with
  | nil => rfl
  | cons a l ih =>
    rw [List.insertionSort, filter_order_orderedInsert]
    by_cases hao : a.order = o
    · rw [if_pos (by simp [hao]), ih, List.filter_cons_of_pos (by simp [hao])]
    · rw [if_neg (by simp [hao]), ih, List.filter_cons_of_neg (by simp [hao])]

theorem perm_mergeConstantAndAuthRoutes (constant authorized : List Route) :
    List.Perm (mergeConstantAndAuthRoutes constant authorized) (constant ++ authorized) :=
  perm_sortRoutesByOrder (constant ++ authorized)

/-- C2 counterexample: a constant route and an authorized route sharing the
key "a" both survive the merge step — the merged list repeats the key, so the
concatenation is not de-duplicated by route key and no same-key override takes
place in the merged tree. -/
theorem mergeStep_not_dedup_counterexample :
    ¬ ((mergeConstantAndAuthRoutes [{ name := "a", order := 0 }]
        [{ name := "a", order := 1 }]).map (fun r => r.name)).Nodup := by
  decide

/-- C2 (amended): the merge step does not de-duplicate by route key: it is a
stable order-ascending sort of the plain concatenation of the two collections,
kept as a permutation of `C ++ A`, so per-key multiplicities add and a key
occurring in both collections occurs twice in the merged tree.  De-duplication
by name happens earlier, per collection, inside
`addConstantRoutes`/`addAuthRoutes`. -/
theorem mergeStep_concat_stable_sorted (constant authorized : List Route) :
    List.Perm (mergeConstantAndAuthRoutes constant authorized) (constant ++ authorized) ∧
      (∀ n : String,
        ((mergeConstantAndAuthRoutes constant authorized).filter
            (fun r => r.name == n)).length
          = (constant.filter (fun r => r.name == n)).length
            + (authorized.filter (fun r => r.name == n)).length) ∧
      List.Sorted routeOrderLE (mergeConstantAndAuthRoutes constant authorized) ∧
      (∀ o : Nat,
        (mergeConstantAndAuthRoutes constant authorized).filter (fun r => r.order == o)
          = (constant ++ authorized).filter (fun r => r.order == o)) := by
  refine ⟨perm_mergeConstantAndAuthRoutes constant authorized, ?_, ?_, ?_⟩
  · intro n
    rw [((perm_mergeConstantAndAuthRoutes constant authorized).filter _).length_eq,
      List.filter_append, List.length_append]
  · exact sorted_sortRoutesByOrder (constant ++ authorized)
  · intro o
    exact filter_order_sortRoutesByOrder o (constant ++ authorized)

/-- C8: for key-disjoint trees the merge step yields exactly the sum of the
sizes, sorted by declared order ascending with the stable tie-break that
preserves original relative order; concretely, merging home (order 0),
reports (order 2), settings (order 1) with an empty authorized set yields
home, settings, reports. -/
theorem mergeStep_disjoint_spec (t1 t2 : List Route)
    (_hdisj : (t1.map (fun r => r.name)).Disjoint (t2.map (fun r => r.name))) :
    (mergeConstantAndAuthRoutes t1 t2).length = t1.length + t2.length ∧
      List.Sorted routeOrderLE (mergeConstantAndAuthRoutes t1 t2) ∧
      (∀ o : Nat, (mergeConstantAndAuthRoutes t1 t2).filter (fun r => r.order == o)
        = (t1 ++ t2).filter (fun r => r.order == o)) ∧
      mergeConstantAndAuthRoutes
          [{ name := "home", order := 0 }, { name := "reports", order := 2 },
            { name := "settings", order := 1 }] []
        = [{ name := "home", order := 0 }, { name := "settings", order := 1 },
            { name := "reports", order := 2 }] := by
  refine ⟨?_, sorted_sortRoutesByOrder (t1 ++ t2),
    fun o => filter_order_sortRoutesByOrder o (t1 ++ t2), by decide⟩
  rw [(perm_mergeConstantAndAuthRoutes t1 t2).length_eq, List.length_append]

/-- Witness for C8 at a concrete input: a one-element constant tree and an
empty authorized tree have disjoint keys, and their merge has length 1 + 0. -/
theorem mergeStep_disjoint_spec_witness :
    (([{ name := "home", order := 0 }] : List Route).map (fun r => r.name)).Disjoint
        (([] : List Route).map (fun r => r.name)) ∧
      (mergeConstantAndAuthRoutes [{ name := "home", order := 0 }] []).length = 1 + 0 :=
  ⟨by simp [List.Disjoint],
    (mergeStep_disjoint_spec [{ name := "home", order := 0 }] []
      (by simp [List.Disjoint])).1⟩

/-! ## Basic facts about the cache primitives -/

theorem addCacheRoutes_cacheTrace (k : String) (s : RouteState) :
    (addCacheRoutes k s).cacheTrace = s.cacheTrace ++ [CacheEvent.addCache k] := by
  unfold addCacheRoutes
  split <;> rfl

theorem addCacheRoutes_allCacheRoutes (k : String) (s : RouteState) :
    (addCacheRoutes k s).allCacheRoutes = s.allCacheRoutes := by
  unfold addCacheRoutes
  split <;> rfl

theorem mem_addCacheRoutes_self (k : String) (s : RouteState) :
    k ∈ (addCacheRoutes k s).cacheRoutes := by
  unfold addCacheRoutes
  split
  · next h => simpa using h
  · simp

theorem mem_addCacheRoutes_of_ne (k j : String) (s : RouteState) (hjk : j ≠ k) :
    j ∈ (addCacheRoutes k s).cacheRoutes ↔ j ∈ s.cacheRoutes := by
  unfold addCacheRoutes
  split <;> simp [hjk]

/-- C7: for a route key not in the cache allow-set, `reCacheRoutesByKey` is a
complete no-op: no reload is invoked and the whole store state — in particular
the allow-set `allCacheRoutes` and the active set `cacheRoutes` — is left
unchanged. -/
theorem reCacheRoutesByKey_not_allowed (routeKey : String) (s : RouteState)
    (h : routeKey ∉ s.allCacheRoutes) : reCacheRoutesByKey routeKey s = s := by
  unfold reCacheRoutesByKey isCachedRoute
  simp [h]

/-- Witness for C7 at a concrete input: the key "x" is not allowed in a store
whose active list is ["y"], and re-caching it changes nothing. -/
theorem reCacheRoutesByKey_not_allowed_witness :
    "x" ∉ ({ cacheRoutes := ["y"] } : RouteState).allCacheRoutes ∧
      reCacheRoutesByKey "x" { cacheRoutes := ["y"] } = { cacheRoutes := ["y"] } :=
  ⟨by decide, reCacheRoutesByKey_not_allowed "x" { cacheRoutes := ["y"] } (by decide)⟩

/-- C6: for a route key in the cache allow-set, `reCacheRoutesByKey` first
invokes removal of the key, then exactly one reload of the hosting view, then
re-addition of the key; afterwards the key is again a member of the active
cache list, membership of every other key is unchanged, and the allow-set is
unchanged. -/
theorem reCacheRoutesByKey_allowed (routeKey : String) (s : RouteState)
    (h : routeKey ∈ s.allCacheRoutes) :
    (reCacheRoutesByKey routeKey s).cacheTrace
        = s.cacheTrace ++ [CacheEvent.removeCache routeKey, CacheEvent.reload,
            CacheEvent.addCache routeKey] ∧
      routeKey ∈ (reCacheRoutesByKey routeKey s).cacheRoutes ∧
      (∀ j : String, j ≠ routeKey →
        (j ∈ (reCacheRoutesByKey routeKey s).cacheRoutes ↔ j ∈ s.cacheRoutes)) ∧
      (reCacheRoutesByKey routeKey s).allCacheRoutes = s.allCacheRoutes := by
  have hre : reCacheRoutesByKey routeKey s
      = addCacheRoutes routeKey (reloadPage (removeCacheRoutes routeKey s)) := by
    unfold reCacheRoutesByKey isCachedRoute
    simp [h]
  rw [hre]
  refine ⟨?_, ?_, ?_, ?_⟩
  · rw [addCacheRoutes_cacheTrace]
    simp [reloadPage, removeCacheRoutes]
  · exact mem_addCacheRoutes_self _ _
  · intro j hj
    rw [mem_addCacheRoutes_of_ne _ _ _ hj]
    show j ∈ s.cacheRoutes.erase routeKey ↔ _
    exact List.mem_erase_of_ne hj
  · rw [addCacheRoutes_allCacheRoutes]
    rfl

/-- Witness for C6 at a concrete input: "a" is allowed, and after re-caching it
is again in the active cache list. -/
theorem reCacheRoutesByKey_allowed_witness :
    "a" ∈ ({ cacheRoutes := ["a"], allCacheRoutes := ["a"] } : RouteState).allCacheRoutes ∧
      "a" ∈ (reCacheRoutesByKey "a"
        { cacheRoutes := ["a"], allCacheRoutes := ["a"] }).cacheRoutes :=
  ⟨by decide,
    (reCacheRoutesByKey_allowed "a" { cacheRoutes := ["a"], allCacheRoutes := ["a"] }
      (by decide)).2.1⟩

theorem reCacheRoutesByKey_allCacheRoutes (k : String) (s : RouteState) :
    (reCacheRoutesByKey k s).allCacheRoutes = s.allCacheRoutes := by
  unfold reCacheRoutesByKey
  split
  · rw [addCacheRoutes_allCacheRoutes]; rfl
  · rfl

theorem reCacheRoutesByKey_cacheTrace (k : String) (s : RouteState) :
    (reCacheRoutesByKey k s).cacheTrace
      = s.cacheTrace ++ (if k ∈ s.allCacheRoutes then
          [CacheEvent.removeCache k, CacheEvent.reload, CacheEvent.addCache k]
        else []) := by
  by_cases h : k ∈ s.allCacheRoutes
  · rw [if_pos h]
    have hre : reCacheRoutesByKey k s
        = addCacheRoutes k (reloadPage (removeCacheRoutes k s)) := by
      unfold reCacheRoutesByKey isCachedRoute
      simp [h]
    rw [hre, addCacheRoutes_cacheTrace]
    simp [reloadPage, removeCacheRoutes]
  · rw [if_neg h]
    have hre : reCacheRoutesByKey k s = s := by
      unfold reCacheRoutesByKey isCachedRoute
      simp [h]
    rw [hre]
    simp

/-- C9: `reCacheRoutesByKeys` executes the single-key re-cache strictly in the
order of the given key sequence: the collaborator trace it leaves is the
in-order concatenation of one complete remove–reload–re-add block per allowed
key, so each key's reload completes (its block closes with the re-add) before
the next key's block begins and no two reloads overlap.  The allow-set is
unchanged throughout, so each key is judged against the same allow-set. -/
theorem reCacheRoutesByKeys_sequential (routeKeys : List String) (s : RouteState) :
    (reCacheRoutesByKeys routeKeys s).cacheTrace
        = s.cacheTrace
          ++ (routeKeys.filter (fun k => decide (k ∈ s.allCacheRoutes))).flatMap
            (fun k => [CacheEvent.removeCache k, CacheEvent.reload,
              CacheEvent.addCache k]) ∧
      (reCacheRoutesByKeys routeKeys s).allCacheRoutes = s.allCacheRoutes := by
  induction routeKeys generalizing s with
  | nil => simp [reCacheRoutesByKeys]
  | cons k ks ih =>
    have hstep : reCacheRoutesByKeys (k :: ks) s
        = reCacheRoutesByKeys ks (reCacheRoutesByKey k s) := rfl
    have h1 := reCacheRoutesByKey_cacheTrace k s
    have h2 := reCacheRoutesByKey_allCacheRoutes k s
    have ihs := ih (reCacheRoutesByKey k s)
    constructor
    · rw [hstep, ihs.1, h1, h2]
      by_cases hk : k ∈ s.allCacheRoutes <;>
        simp [hk, List.filter_cons]
    · rw [hstep, ihs.2, h2]

/-! ## The `Map`-based de-duplication of `addConstantRoutes`/`addAuthRoutes` -/

theorem find?_cons_eq (p : Route → Bool) (a : Route) (l : List Route) :
    (a :: l).find? p = if p a then some a else l.find? p := by
  rw [List.find?_cons]
  cases h : p a <;> simp [h]

theorem any_name_eq_contains (acc : List Route) (n : String) :
    acc.any (fun x => x.name == n) = (acc.map (fun x => x.name)).contains n := by
  induction acc with
  | nil => rfl
  | cons a acc ih =>
    simp only [List.any_cons, List.map_cons, List.contains_cons, ih]
    by_cases h : a.name = n
    · subst h
      simp
    · have h1 : (a.name == n) = false := by simp [h]
      have h2 : (n == a.name) = false := by simp [Ne.symm h]
      rw [h1, h2]

theorem map_name_map_subst (acc : List Route) (r : Route) :
    (acc.map (fun x => if x.name == r.name then r else x)).map (fun x => x.name)
      = acc.map (fun x => x.name) := by
  rw [List.map_map]
  refine List.map_congr_left ?_
  intro x _
  by_cases h : x.name = r.name
  · simp [Function.comp_apply, h]
  · simp [Function.comp_apply, h]

theorem map_name_mapSetByName (acc : List Route) (r : Route) :
    (mapSetByName acc r).map (fun x => x.name)
      = insertNew (acc.map (fun x => x.name)) r.name := by
  unfold mapSetByName insertNew
  rw [any_name_eq_contains]
  by_cases h : (acc.map (fun x => x.name)).contains r.name
  · rw [if_pos h, if_pos h]
    exact map_name_map_subst acc r
  · rw [if_neg h, if_neg h]
    simp

theorem map_name_foldl_mapSetByName (rs : List Route) (acc : List Route) :
    (rs.foldl mapSetByName acc).map (fun x => x.name)
      = rs.foldl (fun ns r => insertNew ns r.name) (acc.map (fun x => x.name)) := by
  induction rs generalizing acc with
  | nil => rfl
  | cons r rs ih =>
    simp only [List.foldl_cons, ih, map_name_mapSetByName]

theorem dedupRoutesByName_names (rs : List Route) :
    (dedupRoutesByName rs).map (fun x => x.name)
      = firstOccur (rs.map (fun x => x.name)) := by
  unfold dedupRoutesByName firstOccur
  rw [map_name_foldl_mapSetByName, List.foldl_map]
  rfl

theorem mem_foldl_insertNew (l : List String) (acc : List String) (n : String) :
    n ∈ l.foldl insertNew acc ↔ n ∈ acc ∨ n ∈ l := by
  induction l generalizing acc with
  | nil => simp
  | cons m l ih =>
    simp only [List.foldl_cons, ih]
    unfold insertNew
    by_cases h : acc.contains m
    · rw [if_pos h]
      have hm : m ∈ acc := by simpa using h
      constructor
      · rintro (hn | hn)
        · exact Or.inl hn
        · exact Or.inr (List.mem_cons_of_mem _ hn)
      · rintro (hn | hn)
        · exact Or.inl hn
        · rcases List.mem_cons.mp hn with rfl | hn
          · exact Or.inl hm
          · exact Or.inr hn
    · rw [if_neg h]
      simp only [List.mem_append, List.mem_cons, List.mem_singleton]
      tauto

theorem mem_firstOccur (l : List String) (n : String) :
    n ∈ firstOccur l ↔ n ∈ l := by
  unfold firstOccur
  rw [mem_foldl_insertNew]
  simp

theorem nodup_foldl_insertNew (l : List String) (acc : List String) (h : acc.Nodup) :
    (l.foldl insertNew acc).Nodup := by
  induction l generalizing acc with
  | nil => exact h
  | cons m l ih =>
    refine ih _ ?_
    unfold insertNew
    by_cases hm : acc.contains m
    · rwa [if_pos hm]
    · rw [if_neg hm]
      have hnm : m ∉ acc := by simpa using hm
      simp [List.nodup_append, h, hnm]

theorem nodup_firstOccur (l : List String) : (firstOccur l).Nodup :=
  nodup_foldl_insertNew l [] List.nodup_nil

theorem find?_append_left_none (p : Route → Bool) (l₁ l₂ : List Route)
    (h : l₁.find? p = none) : (l₁ ++ l₂).find? p = l₂.find? p := by
  rw [List.find?_append, h]
  rfl

theorem find?_map_subst_self (acc : List Route) (r : Route)
    (h : ∃ x ∈ acc, x.name = r.name) :
    (acc.map (fun x => if x.name == r.name then r else x)).find?
        (fun x => x.name == r.name) = some r := by
  induction acc with
  | nil => simp at h
  | cons a acc ih =>
    by_cases ha : a.name = r.name
    · have hsub : (if a.name == r.name then r else a) = r := by simp [ha]
      simp only [List.map_cons, hsub]
      rw [find?_cons_eq, if_pos (by simp)]
    · have hsub : (if a.name == r.name then r else a) = a := by simp [ha]
      simp only [List.map_cons, hsub]
      rw [find?_cons_eq, if_neg (by simp [ha])]
      refine ih ?_
      rcases h with ⟨x, hx, hxn⟩
      rcases List.mem_cons.mp hx with rfl | hx
      · exact absurd hxn ha
      · exact ⟨x, hx, hxn⟩

theorem find?_map_subst_of_ne (acc : List Route) (r : Route) (n : String)
    (hn : r.name ≠ n) :
    (acc.map (fun x => if x.name == r.name then r else x)).find? (fun x => x.name == n)
      = acc.find? (fun x => x.name == n) := by
  induction acc with
  | nil => rfl
  | cons a acc ih =>
    by_cases ha : a.name = r.name
    · have hsub : (if a.name == r.name then r else a) = r := by simp [ha]
      simp only [List.map_cons, hsub]
      rw [find?_cons_eq, if_neg (by simp [hn]), find?_cons_eq, if_neg (by simp [ha, hn])]
      exact ih
    · have hsub : (if a.name == r.name then r else a) = a := by simp [ha]
      simp only [List.map_cons, hsub]
      rw [find?_cons_eq, find?_cons_eq]
      by_cases hpa : a.name = n
      · rw [if_pos (by simp [hpa]), if_pos (by simp [hpa])]
      · rw [if_neg (by simp [hpa]), if_neg (by simp [hpa])]
        exact ih

theorem find?_mapSetByName_self (acc : List Route) (r : Route) :
    (mapSetByName acc r).find? (fun x => x.name == r.name) = some r := by
  unfold mapSetByName
  by_cases h : acc.any (fun x => x.name == r.name)
  · rw [if_pos h]
    refine find?_map_subst_self acc r ?_
    rcases List.any_eq_true.mp h with ⟨x, hx, hbx⟩
    exact ⟨x, hx, eq_of_beq hbx⟩
  · rw [if_neg h]
    have hnone : acc.find? (fun x => x.name == r.name) = none := by
      rw [List.find?_eq_none]
      intro x hx hbx
      exact h (List.any_eq_true.mpr ⟨x, hx, hbx⟩)
    rw [find?_append_left_none _ _ _ hnone]
    rw [find?_cons_eq, if_pos (by simp)]

theorem find?_mapSetByName_of_ne (acc : List Route) (r : Route) (n : String)
    (hn : r.name ≠ n) :
    (mapSetByName acc r).find? (fun x => x.name == n)
      = acc.find? (fun x => x.name == n) := by
  unfold mapSetByName
  by_cases h : acc.any (fun x => x.name == r.name)
  · rw [if_pos h]
    exact find?_map_subst_of_ne acc r n hn
  · rw [if_neg h]
    rw [List.find?_append]
    have hr : ([r].find? fun x => x.name == n) = none := by
      rw [List.find?_eq_none]
      intro x hx hbx
      rcases List.mem_singleton.mp hx with rfl
      exact hn (eq_of_beq hbx)
    rw [hr]
    exact Option.or_none

theorem dedupRoutesByName_find? (rs : List Route) (n : String) :
    (dedupRoutesByName rs).find? (fun x => x.name == n)
      = (rs.filter (fun x => x.name == n)).getLast? := by
  induction rs using List.reverseRecOn with
  | nil => rfl
  | append_singleton rs r ih =>
    have hfold : dedupRoutesByName (rs ++ [r]) = mapSetByName (dedupRoutesByName rs) r := by
      unfold dedupRoutesByName
      rw [List.foldl_append]
      rfl
    rw [hfold]
    by_cases hr : r.name = n
    · subst hr
      rw [find?_mapSetByName_self, List.filter_append]
      have hfr : [r].filter (fun x => x.name == r.name) = [r] := by simp
      rw [hfr, List.getLast?_concat]
    · rw [find?_mapSetByName_of_ne _ _ _ hr, ih, List.filter_append]
      have hfr : [r].filter (fun x => x.name == n) = [] := by simp [hr]
      rw [hfr, List.append_nil]

/-- C10: both `addConstantRoutes` and `addAuthRoutes` store a list whose route
names are unique; when the input contains several routes with the same name the
last occurrence in the input wins, and the stored list lists names in the
order of first occurrence of each name — the de-duplication happens per
collection at insertion time. -/
theorem addRoutes_dedup_by_name (routes : List Route) (s : RouteState) :
    (((addConstantRoutes routes s).constantRoutes.map (fun r => r.name)).Nodup ∧
      (addConstantRoutes routes s).constantRoutes.map (fun r => r.name)
        = firstOccur (routes.map (fun r => r.name)) ∧
      ∀ n : String,
        (addConstantRoutes routes s).constantRoutes.find? (fun r => r.name == n)
          = (routes.filter (fun r => r.name == n)).getLast?) ∧
    (((addAuthRoutes routes s).authRoutes.map (fun r => r.name)).Nodup ∧
      (addAuthRoutes routes s).authRoutes.map (fun r => r.name)
        = firstOccur (routes.map (fun r => r.name)) ∧
      ∀ n : String,
        (addAuthRoutes routes s).authRoutes.find? (fun r => r.name == n)
          = (routes.filter (fun r => r.name == n)).getLast?) := by
  have hnames : (dedupRoutesByName routes).map (fun r => r.name)
      = firstOccur (routes.map (fun r => r.name)) := dedupRoutesByName_names routes
  have hnodup : ((dedupRoutesByName routes).map (fun r => r.name)).Nodup := by
    rw [hnames]
    exact nodup_firstOccur _
  exact ⟨⟨hnodup, hnames, fun n => dedupRoutesByName_find? routes n⟩,
    ⟨hnodup, hnames, fun n => dedupRoutesByName_find? routes n⟩⟩

/-! ## Router synchronization: retraction handles and registration -/

theorem regInsert_eq_insertNew : regInsert = insertNew := rfl

theorem mem_foldl_regInsert (names : List String) (reg : List String) (n : String) :
    n ∈ names.foldl regInsert reg ↔ n ∈ reg ∨ n ∈ names := by
  rw [regInsert_eq_insertNew]
  exact mem_foldl_insertNew names reg n

theorem mem_foldl_filter_ne (fns : List String) (reg : List String) (n : String) :
    n ∈ fns.foldl (fun r m => r.filter (fun x => x != m)) reg ↔ n ∈ reg ∧ n ∉ fns := by
  induction fns generalizing reg with
  | nil => simp
  | cons f fns ih =>
    rw [List.foldl_cons, ih]
    simp only [List.mem_filter, bne_iff_ne, List.mem_cons]
    tauto

theorem foldl_routerRemoveRoute_eq (fns : List String) (s : RouteState) :
    fns.foldl (fun t m => routerRemoveRoute m t) s
      = { s with registered :=
          fns.foldl (fun r m => r.filter (fun x => x != m)) s.registered } := by
  induction fns generalizing s with
  | nil => rfl
  | cons f fns ih =>
    rw [List.foldl_cons, List.foldl_cons, ih]
    rfl

theorem resetVueRoutes_eq (s : RouteState) :
    resetVueRoutes s
      = { s with
          registered :=
            s.removeRouteFns.foldl (fun r m => r.filter (fun x => x != m)) s.registered,
          removeRouteFns := [] } := by
  unfold resetVueRoutes
  rw [foldl_routerRemoveRoute_eq]

theorem addRoutesToVueRouter_eq (routes : List Route) (s : RouteState) :
    addRoutesToVueRouter routes s
      = { s with
          registered := (routes.map (fun r => r.name)).foldl regInsert s.registered,
          removeRouteFns := s.removeRouteFns ++ routes.map (fun r => r.name) } := by
  induction routes generalizing s with
  | nil => simp [addRoutesToVueRouter]
  | cons r rs ih =>
    show rs.foldl _ (addRemoveRouteFn r.name (routerAddRoute r.name s)) = _
    rw [show rs.foldl (fun t x => addRemoveRouteFn x.name (routerAddRoute x.name t))
          (addRemoveRouteFn r.name (routerAddRoute r.name s))
        = addRoutesToVueRouter rs (addRemoveRouteFn r.name (routerAddRoute r.name s)) from rfl]
    rw [ih]
    unfold addRemoveRouteFn routerAddRoute
    simp [List.foldl_cons, List.append_assoc]

theorem handleConstantAndAuthRoutes_eq (s : RouteState) :
    handleConstantAndAuthRoutes s
      = { s with
          registered := ((mergeConstantAndAuthRoutes s.constantRoutes s.authRoutes).map
              (fun r => r.name)).foldl regInsert
              (s.removeRouteFns.foldl (fun r m => r.filter (fun x => x != m)) s.registered),
          removeRouteFns := (mergeConstantAndAuthRoutes s.constantRoutes s.authRoutes).map
            (fun r => r.name),
          menus := getGlobalMenusByAuthRoutes
            (mergeConstantAndAuthRoutes s.constantRoutes s.authRoutes),
          cacheRoutes := getCacheRouteNames
            (mergeConstantAndAuthRoutes s.constantRoutes s.authRoutes),
          allCacheRoutes := getCacheRouteNames
            (mergeConstantAndAuthRoutes s.constantRoutes s.authRoutes) } := by
  show getCacheRoutes _ (getGlobalMenus _ (addRoutesToVueRouter _ (resetVueRoutes s))) = _
  rw [resetVueRoutes_eq, addRoutesToVueRouter_eq]
  rfl

theorem handle_authRoutes (s : RouteState) :
    (handleConstantAndAuthRoutes s).authRoutes = s.authRoutes := by
  rw [handleConstantAndAuthRoutes_eq]

theorem handle_constantRoutes (s : RouteState) :
    (handleConstantAndAuthRoutes s).constantRoutes = s.constantRoutes := by
  rw [handleConstantAndAuthRoutes_eq]

theorem handle_isInitAuthRoute (s : RouteState) :
    (handleConstantAndAuthRoutes s).isInitAuthRoute = s.isInitAuthRoute := by
  rw [handleConstantAndAuthRoutes_eq]

theorem handle_isInitConstantRoute (s : RouteState) :
    (handleConstantAndAuthRoutes s).isInitConstantRoute = s.isInitConstantRoute := by
  rw [handleConstantAndAuthRoutes_eq]

theorem handle_allCacheRoutes (s : RouteState) :
    (handleConstantAndAuthRoutes s).allCacheRoutes
      = getCacheRouteNames (mergeConstantAndAuthRoutes s.constantRoutes s.authRoutes) := by
  rw [handleConstantAndAuthRoutes_eq]

theorem handle_menus (s : RouteState) :
    (handleConstantAndAuthRoutes s).menus
      = getGlobalMenusByAuthRoutes
          (mergeConstantAndAuthRoutes s.constantRoutes s.authRoutes) := by
  rw [handleConstantAndAuthRoutes_eq]

theorem resetVueRoutes_isInitConstantRoute (s : RouteState) :
    (resetVueRoutes s).isInitConstantRoute = s.isInitConstantRoute := by
  rw [resetVueRoutes_eq]

theorem resetVueRoutes_isInitAuthRoute (s : RouteState) :
    (resetVueRoutes s).isInitAuthRoute = s.isInitAuthRoute := by
  rw [resetVueRoutes_eq]

theorem resetVueRoutes_authRoutes (s : RouteState) :
    (resetVueRoutes s).authRoutes = s.authRoutes := by
  rw [resetVueRoutes_eq]

theorem mem_handle_registered (s : RouteState)
    (hinv : ∀ n, n ∈ s.registered → n ∈ s.removeRouteFns) (n : String) :
    n ∈ (handleConstantAndAuthRoutes s).registered ↔
      n ∈ (s.constantRoutes ++ s.authRoutes).map (fun r => r.name) := by
  rw [handleConstantAndAuthRoutes_eq]
  show n ∈ List.foldl regInsert _ _ ↔ _
  rw [mem_foldl_regInsert, mem_foldl_filter_ne]
  have hdead : ¬ (n ∈ s.registered ∧ n ∉ s.removeRouteFns) :=
    fun h => h.2 (hinv n h.1)
  have hperm : n ∈ (mergeConstantAndAuthRoutes s.constantRoutes s.authRoutes).map
        (fun r => r.name)
      ↔ n ∈ (s.constantRoutes ++ s.authRoutes).map (fun r => r.name) :=
    ((perm_mergeConstantAndAuthRoutes s.constantRoutes s.authRoutes).map _).mem_iff
  tauto

theorem handle_preserves_inv (s : RouteState)
    (hinv : ∀ n, n ∈ s.registered → n ∈ s.removeRouteFns) :
    ∀ n, n ∈ (handleConstantAndAuthRoutes s).registered
      → n ∈ (handleConstantAndAuthRoutes s).removeRouteFns := by
  intro n hn
  rw [handleConstantAndAuthRoutes_eq] at hn ⊢
  replace hn : n ∈ List.foldl regInsert
      (s.removeRouteFns.foldl (fun r m => r.filter (fun x => x != m)) s.registered)
      ((mergeConstantAndAuthRoutes s.constantRoutes s.authRoutes).map (fun r => r.name)) := hn
  rw [mem_foldl_regInsert, mem_foldl_filter_ne] at hn
  rcases hn with ⟨h1, h2⟩ | h
  · exact absurd (hinv n h1) h2
  · exact h

theorem mem_map_name_dedup (rs : List Route) (n : String) :
    n ∈ (dedupRoutesByName rs).map (fun r => r.name) ↔ n ∈ rs.map (fun r => r.name) := by
  rw [dedupRoutesByName_names, mem_firstOccur]

/-- C1: synchronizing the router for a tree T (constant part `c`, authorized
part `a`) and then for a tree T' (parts `c'`, `a'`) leaves the live router's
registered name set exactly equal to the key set of T': every handle recorded
during the first pass is retracted before the second registration pass, so no
stale key of T survives and no key of T' is missing.  The hypothesis states
that every currently registered name is covered by a recorded retraction
handle, which holds of the fresh store. -/
theorem syncTwice_registered_eq_second_tree (s : RouteState) (c a c' a' : List Route)
    (hinv : ∀ n, n ∈ s.registered → n ∈ s.removeRouteFns) (n : String) :
    n ∈ (handleConstantAndAuthRoutes (addAuthRoutes a' (addConstantRoutes c'
          (handleConstantAndAuthRoutes (addAuthRoutes a (addConstantRoutes c s)))))).registered
      ↔ n ∈ (c' ++ a').map (fun r => r.name) := by
  have hinv1 : ∀ m, m ∈ (addAuthRoutes a (addConstantRoutes c s)).registered
      → m ∈ (addAuthRoutes a (addConstantRoutes c s)).removeRouteFns := hinv
  have hinv2 := handle_preserves_inv _ hinv1
  have hinv3 : ∀ m, m ∈ (addAuthRoutes a' (addConstantRoutes c'
        (handleConstantAndAuthRoutes (addAuthRoutes a (addConstantRoutes c s))))).registered
      → m ∈ (addAuthRoutes a' (addConstantRoutes c'
        (handleConstantAndAuthRoutes (addAuthRoutes a (addConstantRoutes c s))))).removeRouteFns :=
    hinv2
  rw [mem_handle_registered _ hinv3]
  show n ∈ (dedupRoutesByName c' ++ dedupRoutesByName a').map (fun r => r.name) ↔ _
  simp only [List.map_append, List.mem_append, mem_map_name_dedup]

/-- Witness for C1 at a concrete input: starting from the fresh store (no
registrations, no handles) and synchronizing a one-node tree and then a
different one-node tree, the router holds the second tree's key. -/
theorem syncTwice_registered_eq_second_tree_witness :
    (∀ n : String, n ∈ (({} : RouteState)).registered → n ∈ (({} : RouteState)).removeRouteFns) ∧
      ("b" ∈ (handleConstantAndAuthRoutes (addAuthRoutes [] (addConstantRoutes
            [{ name := "b", order := 0 }]
            (handleConstantAndAuthRoutes (addAuthRoutes []
              (addConstantRoutes [{ name := "a", order := 0 }] {})))))).registered
        ↔ "b" ∈ (([{ name := "b", order := 0 }] ++ []) : List Route).map (fun r => r.name)) :=
  ⟨fun n h => absurd h (List.not_mem_nil n),
    syncTwice_registered_eq_second_tree {} [{ name := "a", order := 0 }] []
      [{ name := "b", order := 0 }] [] (fun n h => absurd h (List.not_mem_nil n)) "b"⟩

/-! ## Store reset and the constant/static auth initialization paths -/

theorem initConstantRoute_not_init (catalog : StaticCatalog) (s : RouteState)
    (h : s.isInitConstantRoute = false) :
    initConstantRoute catalog s
      = { handleConstantAndAuthRoutes (addConstantRoutes catalog.constantRoutes s)
          with isInitConstantRoute := true } := by
  unfold initConstantRoute
  rw [h]
  rfl

theorem mem_getCacheRouteNames (rs : List Route) (n : String)
    (h : n ∈ getCacheRouteNames rs) : n ∈ rs.map (fun r => r.name) := by
  unfold getCacheRouteNames at h
  rcases List.mem_map.mp h with ⟨r, hr, rfl⟩
  exact List.mem_map.mpr ⟨r, (List.mem_filter.mp hr).1, rfl⟩

theorem mem_getGlobalMenusByAuthRoutes (rs : List Route) (n : String)
    (h : n ∈ getGlobalMenusByAuthRoutes rs) : n ∈ rs.map (fun r => r.name) := by
  unfold getGlobalMenusByAuthRoutes at h
  rcases List.mem_map.mp h with ⟨r, hr, rfl⟩
  exact List.mem_map.mpr ⟨r, (List.mem_filter.mp hr).1, rfl⟩

theorem mem_cache_merge_dedup_nil (rs : List Route) (n : String)
    (h : n ∈ getCacheRouteNames (mergeConstantAndAuthRoutes (dedupRoutesByName rs) [])) :
    n ∈ rs.map (fun r => r.name) := by
  have h1 := mem_getCacheRouteNames _ _ h
  have h2 := ((perm_mergeConstantAndAuthRoutes (dedupRoutesByName rs) []).map
    (fun r => r.name)).mem_iff.mp h1
  rw [List.append_nil] at h2
  exact (mem_map_name_dedup _ _).mp h2

theorem mem_menus_merge_dedup_nil (rs : List Route) (n : String)
    (h : n ∈ getGlobalMenusByAuthRoutes (mergeConstantAndAuthRoutes (dedupRoutesByName rs) [])) :
    n ∈ rs.map (fun r => r.name) := by
  have h1 := mem_getGlobalMenusByAuthRoutes _ _ h
  have h2 := ((perm_mergeConstantAndAuthRoutes (dedupRoutesByName rs) []).map
    (fun r => r.name)).mem_iff.mp h1
  rw [List.append_nil] at h2
  exact (mem_map_name_dedup _ _).mp h2

/-- C5: from any state whose registered names are all covered by recorded
retraction handles, `resetStore` retracts every live navigation entry, clears
the auth/menu/cache state, resets the auth flag, and re-runs
`initConstantRoute`, so afterwards the constant-route flag is set, the live
router holds exactly the constant catalog's keys (so constant routes are
navigable again), the menu and cache projections are rebuilt from constant
routes only, and a previously-authorized-only key is no longer registered. -/
theorem resetStore_spec (catalog : StaticCatalog) (s : RouteState)
    (hinv : ∀ n, n ∈ s.registered → n ∈ s.removeRouteFns) :
    (resetStore catalog s).isInitConstantRoute = true ∧
      (resetStore catalog s).isInitAuthRoute = false ∧
      (resetStore catalog s).authRoutes = [] ∧
      (∀ n : String, n ∈ (resetStore catalog s).registered ↔
        n ∈ catalog.constantRoutes.map (fun r => r.name)) ∧
      (∀ n : String, n ∈ (resetStore catalog s).allCacheRoutes →
        n ∈ catalog.constantRoutes.map (fun r => r.name)) ∧
      (∀ n : String, n ∈ (resetStore catalog s).menus →
        n ∈ catalog.constantRoutes.map (fun r => r.name)) ∧
      (∀ n : String, n ∈ s.authRoutes.map (fun r => r.name) →
        n ∉ catalog.constantRoutes.map (fun r => r.name) →
        n ∉ (resetStore catalog s).registered) := by
  have hflag : (resetVueRoutes (piniaReset s)).isInitConstantRoute = false := by
    rw [resetVueRoutes_eq]
    rfl
  have hres : resetStore catalog s
      = { handleConstantAndAuthRoutes (addConstantRoutes catalog.constantRoutes
            (resetVueRoutes (piniaReset s))) with isInitConstantRoute := true } :=
    initConstantRoute_not_init catalog _ hflag
  have hinvX : ∀ n, n ∈ (addConstantRoutes catalog.constantRoutes
        (resetVueRoutes (piniaReset s))).registered
      → n ∈ (addConstantRoutes catalog.constantRoutes
        (resetVueRoutes (piniaReset s))).removeRouteFns := by
    intro n hn
    replace hn : n ∈ (resetVueRoutes (piniaReset s)).registered := hn
    rw [resetVueRoutes_eq] at hn
    replace hn : n ∈ s.removeRouteFns.foldl
        (fun r m => r.filter (fun x => x != m)) s.registered := hn
    rw [mem_foldl_filter_ne] at hn
    exact absurd (hinv n hn.1) hn.2
  have hca : (addConstantRoutes catalog.constantRoutes
      (resetVueRoutes (piniaReset s))).constantRoutes
        = dedupRoutesByName catalog.constantRoutes := rfl
  have haa : (addConstantRoutes catalog.constantRoutes
      (resetVueRoutes (piniaReset s))).authRoutes = [] := by
    show (resetVueRoutes (piniaReset s)).authRoutes = []
    rw [resetVueRoutes_authRoutes]
    rfl
  have hmem : ∀ n : String, n ∈ (resetStore catalog s).registered ↔
      n ∈ catalog.constantRoutes.map (fun r => r.name) := by
    intro n
    rw [hres]
    have h1 := mem_handle_registered _ hinvX n
    rw [hca, haa, List.append_nil] at h1
    exact h1.trans (mem_map_name_dedup catalog.constantRoutes n)
  refine ⟨by rw [hres], ?_, ?_, hmem, ?_, ?_, ?_⟩
  · rw [hres]
    show (handleConstantAndAuthRoutes (addConstantRoutes catalog.constantRoutes
      (resetVueRoutes (piniaReset s)))).isInitAuthRoute = false
    rw [handle_isInitAuthRoute]
    show (resetVueRoutes (piniaReset s)).isInitAuthRoute = false
    rw [resetVueRoutes_isInitAuthRoute]
    rfl
  · rw [hres]
    show (handleConstantAndAuthRoutes (addConstantRoutes catalog.constantRoutes
      (resetVueRoutes (piniaReset s)))).authRoutes = []
    rw [handle_authRoutes, haa]
  · intro n hn
    rw [hres] at hn
    replace hn : n ∈ (handleConstantAndAuthRoutes (addConstantRoutes catalog.constantRoutes
      (resetVueRoutes (piniaReset s)))).allCacheRoutes := hn
    rw [handle_allCacheRoutes, hca, haa] at hn
    exact mem_cache_merge_dedup_nil catalog.constantRoutes n hn
  · intro n hn
    rw [hres] at hn
    replace hn : n ∈ (handleConstantAndAuthRoutes (addConstantRoutes catalog.constantRoutes
      (resetVueRoutes (piniaReset s)))).menus := hn
    rw [handle_menus, hca, haa] at hn
    exact mem_menus_merge_dedup_nil catalog.constantRoutes n hn
  · intro n _ hnc hr
    exact hnc ((hmem n).mp hr)

/-- Witness for C5 at a concrete input: a dirty store (one registered name
covered by a handle, one authorized route, both flags set) reset against a
one-route constant catalog has its constant flag re-raised. -/
theorem resetStore_spec_witness :
    (∀ n : String,
        n ∈ ({ isInitConstantRoute := true, isInitAuthRoute := true,
               authRoutes := [{ name := "old", order := 0 }],
               registered := ["old"], removeRouteFns := ["old"] } : RouteState).registered →
        n ∈ ({ isInitConstantRoute := true, isInitAuthRoute := true,
               authRoutes := [{ name := "old", order := 0 }],
               registered := ["old"], removeRouteFns := ["old"] } : RouteState).removeRouteFns) ∧
      (resetStore { constantRoutes := [{ name := "home", order := 0 }] }
          { isInitConstantRoute := true, isInitAuthRoute := true,
            authRoutes := [{ name := "old", order := 0 }],
            registered := ["old"], removeRouteFns := ["old"] }).isInitConstantRoute = true :=
  ⟨fun _ h => h,
    (resetStore_spec { constantRoutes := [{ name := "home", order := 0 }] }
      { isInitConstantRoute := true, isInitAuthRoute := true,
        authRoutes := [{ name := "old", order := 0 }],
        registered := ["old"], removeRouteFns := ["old"] } (fun _ h => h)).1⟩

theorem filterAuthRoutesByRoles_nil (rs : List Route) :
    filterAuthRoutesByRoles rs [] = rs.filter (fun r => r.roles.isEmpty) := by
  unfold filterAuthRoutesByRoles
  refine List.filter_congr ?_
  intro r _
  cases hr : r.roles.isEmpty <;> simp [hr, List.contains]

theorem initStaticAuthRoute_authRoutes (catalog : StaticCatalog) (b : Bool)
    (s : RouteState) :
    (initStaticAuthRoute catalog b s).authRoutes
      = dedupRoutesByName (if b then catalog.authRoutes
          else filterAuthRoutesByRoles catalog.authRoutes []) := by
  cases b
  · show (handleConstantAndAuthRoutes (addAuthRoutes
      (filterAuthRoutesByRoles catalog.authRoutes []) s)).authRoutes = _
    rw [handle_authRoutes]
    rfl
  · show (handleConstantAndAuthRoutes (addAuthRoutes catalog.authRoutes s)).authRoutes = _
    rw [handle_authRoutes]
    rfl

theorem initStaticAuthRoute_registered (catalog : StaticCatalog) (b : Bool)
    (s : RouteState) (hinv : ∀ n, n ∈ s.registered → n ∈ s.removeRouteFns) (n : String) :
    n ∈ (initStaticAuthRoute catalog b s).registered ↔
      n ∈ (s.constantRoutes ++ dedupRoutesByName (if b then catalog.authRoutes
          else filterAuthRoutesByRoles catalog.authRoutes [])).map (fun r => r.name) := by
  cases b
  · exact mem_handle_registered
      (addAuthRoutes (filterAuthRoutesByRoles catalog.authRoutes []) s) hinv n
  · exact mem_handle_registered (addAuthRoutes catalog.authRoutes s) hinv n

/-- C3 counterexample: take a static catalog whose single authorized route
requires the role "admin", and a non-super caller whose actual authority is
the role set consisting of "admin".  Filtering the catalog by that caller's
actual authority keeps the route, but `initStaticAuthRoute` filters by the
literal empty roles array in the source, so the authorized routes it stores
differ from what the claim prescribes. -/
theorem initStaticAuthRoute_ignores_authority_counterexample :
    (initStaticAuthRoute
        { authRoutes := [{ name := "adm", order := 0, roles := ["admin"] }] }
        false {}).authRoutes
      ≠ dedupRoutesByName (filterAuthRoutesByRoles
          [{ name := "adm", order := 0, roles := ["admin"] }] ["admin"]) := by
  decide

/-- C3 (amended): in static mode the caller's actual authority is never
consulted.  A super caller receives the whole static authorized catalog; any
other caller receives the catalog filtered by the empty authority set, so only
routes declaring no required role survive, whatever roles the caller holds.
In both cases the store then merges and synchronizes (the router ends up
holding exactly the constant keys plus the stored authorized keys) and raises
the auth-initialized flag. -/
theorem initStaticAuthRoute_spec (catalog : StaticCatalog) (isStaticSuper : Bool)
    (s : RouteState) (hinv : ∀ n, n ∈ s.registered → n ∈ s.removeRouteFns) :
    ((initStaticAuthRoute catalog isStaticSuper s).authRoutes
        = if isStaticSuper then dedupRoutesByName catalog.authRoutes
          else dedupRoutesByName (catalog.authRoutes.filter (fun r => r.roles.isEmpty))) ∧
      (initStaticAuthRoute catalog isStaticSuper s).isInitAuthRoute = true ∧
      (∀ n : String, n ∈ (initStaticAuthRoute catalog isStaticSuper s).registered ↔
        (n ∈ s.constantRoutes.map (fun r => r.name) ∨
          n ∈ (if isStaticSuper then catalog.authRoutes
              else catalog.authRoutes.filter (fun r => r.roles.isEmpty)).map
            (fun r => r.name))) := by
  refine ⟨?_, ?_, ?_⟩
  · rw [initStaticAuthRoute_authRoutes]
    cases isStaticSuper
    · rw [if_neg (by simp), if_neg (by simp), filterAuthRoutesByRoles_nil]
    · rfl
  · cases isStaticSuper <;> rfl
  · intro n
    refine (initStaticAuthRoute_registered catalog isStaticSuper s hinv n).trans ?_
    rw [List.map_append, List.mem_append, mem_map_name_dedup]
    cases isStaticSuper
    · rw [if_neg (by simp), if_neg (by simp), filterAuthRoutesByRoles_nil]
    · rfl

/-- Witness for C3 (amended) at a concrete input: with a two-route authorized
catalog (one role-guarded, one unguarded) and a non-super caller on the fresh
store, only the unguarded route is stored. -/
theorem initStaticAuthRoute_spec_witness :
    (∀ n : String, n ∈ ({} : RouteState).registered → n ∈ ({} : RouteState).removeRouteFns) ∧
      (initStaticAuthRoute
          { authRoutes := [{ name := "adm", order := 0, roles := ["admin"] },
              { name := "pub", order := 1 }] } false {}).authRoutes
        = dedupRoutesByName
            (([{ name := "adm", order := 0, roles := ["admin"] },
              { name := "pub", order := 1 }] : List Route).filter
              (fun r => r.roles.isEmpty)) :=
  ⟨fun n h => absurd h (List.not_mem_nil n),
    (initStaticAuthRoute_spec
      { authRoutes := [{ name := "adm", order := 0, roles := ["admin"] },
          { name := "pub", order := 1 }] } false {}
      (fun n h => absurd h (List.not_mem_nil n))).1⟩

/-- C4: in dynamic mode, when the user-routes fetch fails, `initAuthRoute`
does not set the auth-initialized flag and leaves every piece of route state —
auth routes, menus, cache sets, home key, live registrations and their
retraction handles — unchanged, and it invokes the Auth collaborator's session
reset exactly once.  The failure is absorbed (the modelled function is total),
not rethrown. -/
theorem initAuthRoute_dynamic_failure (catalog : StaticCatalog) (isStaticSuper : Bool)
    (s : RouteState) :
    (initAuthRoute AuthRouteMode.dynamicMode catalog isStaticSuper none s).isInitAuthRoute
        = s.isInitAuthRoute ∧
      (initAuthRoute AuthRouteMode.dynamicMode catalog isStaticSuper none s).authRoutes
        = s.authRoutes ∧
      (initAuthRoute AuthRouteMode.dynamicMode catalog isStaticSuper none s).constantRoutes
        = s.constantRoutes ∧
      (initAuthRoute AuthRouteMode.dynamicMode catalog isStaticSuper none s).menus
        = s.menus ∧
      (initAuthRoute AuthRouteMode.dynamicMode catalog isStaticSuper none s).cacheRoutes
        = s.cacheRoutes ∧
      (initAuthRoute AuthRouteMode.dynamicMode catalog isStaticSuper none s).allCacheRoutes
        = s.allCacheRoutes ∧
      (initAuthRoute AuthRouteMode.dynamicMode catalog isStaticSuper none s).routeHome
        = s.routeHome ∧
      (initAuthRoute AuthRouteMode.dynamicMode catalog isStaticSuper none s).registered
        = s.registered ∧
      (initAuthRoute AuthRouteMode.dynamicMode catalog isStaticSuper none s).removeRouteFns
        = s.removeRouteFns ∧
      (initAuthRoute AuthRouteMode.dynamicMode catalog isStaticSuper none s).resetSessionCount
        = s.resetSessionCount + 1 :=
  ⟨rfl, rfl, rfl, rfl, rfl, rfl, rfl, rfl, rfl, rfl⟩

end GoAdmin
